import Mathlib

/-!
Shallow embedding of the therascript whisper service
(src/packages/whisper/whisper_api.py, src/packages/whisper/server.py,
src/packages/whisper/transcribe.py), together with theorems checking the
specification's claims against it.

Conventions:
* Python floats are embedded as `ℚ` (the claims under study are about
  ordering and exact arithmetic, not about rounding of binary floats).
* Python strings are embedded as `List Nat` of Unicode code points where
  character-level processing matters (the stream decoder, the progress
  regex), and as `String` where they are opaque payloads (model names,
  error messages).
* Async code is embedded as explicit state passing: all mutation of the
  `WhisperModelManager` happens under one asyncio lock in the source, so
  its operations are atomic state transitions.
-/

namespace Therascript

/- Batteries seals the `Rat` arithmetic operations; reopen them so that
concrete runs of the embedded code can be evaluated by `decide`/`rfl`. -/
attribute [local semireducible] Rat.add Rat.mul Rat.sub Rat.inv Rat.ofScientific

/-! ## WhisperModelManager (whisper_api.py lines 65-191)

`MODEL_IDLE_TIMEOUT` defaults to 300 seconds (`whisper_api.py` line 22);
it is embedded as the constant `idleTimeoutQ`.  The `WhisperModel` handle
is embedded by the name the model was constructed with.  `_idle_task` is
embedded as `idleArmed`: `some t` means a single-shot idle task armed at
time `t` is pending (arming overwrites, i.e. cancels, the previous task,
mirroring `_reset_idle_timer`). -/

def idleTimeoutQ : ℚ := 300

structure Mgr where
  model : Option String
  modelName : Option String
  activeJobs : Int
  lastUsed : ℚ
  idleArmed : Option ℚ
deriving DecidableEq

def initMgr : Mgr := ⟨none, none, 0, 0, none⟩

inductive AcquireOutcome
  | ok
  | busy
deriving DecidableEq

/-- `WhisperModelManager.acquire_model` (lines 87-119).  If a different
model is loaded and jobs are active it raises (embedded as `.busy`);
otherwise it unloads any stale model, loads the requested one if the slot
is empty, increments `_active_jobs` and stamps `_last_used`.  The
`ensure_ollama_unloaded` call is best-effort I/O with no manager state.
Note the function never touches `_idle_task`. -/
def acquireModel (name : String) (now : ℚ) (m : Mgr) : Mgr × AcquireOutcome :=
  if m.model.isSome ∧ m.modelName ≠ some name then
    if m.activeJobs > 0 then
      (m, .busy)
    else
      ({ model := some name, modelName := some name, activeJobs := m.activeJobs + 1,
         lastUsed := now, idleArmed := m.idleArmed }, .ok)
  else if m.model.isNone then
    ({ model := some name, modelName := some name, activeJobs := m.activeJobs + 1,
       lastUsed := now, idleArmed := m.idleArmed }, .ok)
  else
    ({ m with activeJobs := m.activeJobs + 1, lastUsed := now }, .ok)

/-- `WhisperModelManager.release_model` (lines 121-125): unconditionally
decrements `_active_jobs`, stamps `_last_used` and re-arms the idle timer
(`MODEL_IDLE_TIMEOUT = 300 > 0`, so `_reset_idle_timer` always arms). -/
def releaseModel (now : ℚ) (m : Mgr) : Mgr :=
  { m with activeJobs := m.activeJobs - 1, lastUsed := now, idleArmed := some now }

/-- `WhisperModelManager._unload_unsafe` (lines 133-148) restricted to its
state effect. -/
def unloadUnsafe (m : Mgr) : Mgr :=
  { m with model := none, modelName := none }

/-- System state: the manager plus a ghost counter of the jobs currently
between a *successful* `acquire_model` and the matching `release_model`
(what the claims call in-flight acquisitions / jobs holding the model). -/
structure SysState where
  mgr : Mgr
  holders : Nat
deriving DecidableEq

def initSys : SysState := ⟨initMgr, 0⟩

/-- Manager-level events.  `releaseOrphan` is the `release_model` call made
by `run_transcription`'s `finally` block (lines 350-358) on a run that
aborted before or during `acquire_model`: the manager operation is the
same, but no holder is released.  `idleFire` is the armed `_idle_unload`
task (lines 157-167) waking up at time `now` (at or after its 300 s sleep)
and running its body under the lock. -/
inductive MEvent
  | acquire (name : String) (now : ℚ)
  | releaseHeld (now : ℚ)
  | releaseOrphan (now : ℚ)
  | idleFire (now : ℚ)
deriving DecidableEq

def eventTime : MEvent → ℚ
  | .acquire _ t => t
  | .releaseHeld t => t
  | .releaseOrphan t => t
  | .idleFire t => t

/-- One interleaving step.  `_idle_unload` unloads only when
`_active_jobs == 0`, a model is loaded, and `now - _last_used >= 300`
(lines 160-165); whether or not it unloads, the armed task is finished. -/
def stepEv (s : SysState) : MEvent → SysState
  | .acquire name now =>
      let r := acquireModel name now s.mgr
      ⟨r.1, s.holders + (if r.2 = .ok then 1 else 0)⟩
  | .releaseHeld now =>
      if s.holders > 0 then ⟨releaseModel now s.mgr, s.holders - 1⟩ else s
  | .releaseOrphan now =>
      ⟨releaseModel now s.mgr, s.holders⟩
  | .idleFire now =>
      match s.mgr.idleArmed with
      | some a =>
          if now ≥ a + idleTimeoutQ then
            let m1 := { s.mgr with idleArmed := none }
            if m1.activeJobs = 0 ∧ m1.model.isSome ∧ now - m1.lastUsed ≥ idleTimeoutQ then
              ⟨unloadUnsafe m1, s.holders⟩
            else
              ⟨m1, s.holders⟩
          else s
      | none => s

/-! ## The in-process orchestrator `run_transcription` (whisper_api.py lines 249-358) -/

inductive JStatus
  | queued
  | model_loading
  | transcribing
  | completed
  | failed
  | canceled
deriving DecidableEq

/-- The payload stored in `job.result` on success (lines 335-339);
its contents are opaque to the claims. -/
structure TRes where
  text : String
  language : String
deriving DecidableEq

structure JobRecord where
  status : JStatus
  progress : ℚ
  duration : Option ℚ
  result : Option TRes
  error : Option String
  startTime : Option ℚ
  endTime : Option ℚ
  message : Option String
deriving DecidableEq

/-- The record created by the `/transcribe` endpoint (lines 403-407). -/
def initJob : JobRecord :=
  ⟨.queued, 0, none, none, none, none, none, some "Job queued"⟩

/-- Environment of one `run_transcription` call: the values the run reads
from the outside world, in source order.  `cancelBeforeLoad`,
`cancelAfterLoad` and `cancelAfterTranscribe` are the values of
`cancel_flags.get(job_id)` at the three reads (lines 262, 274, 325);
`durationProbe` is `get_audio_duration`'s result (0 on probe failure);
`segEnds` are the values of `last_segment_end[0]` seen by the successive
iterations of the progress-polling loop (lines 313-320); `transcribeError`
and `writeError` are the exceptions (if any) raised by the transcription
task and by writing the output file. -/
structure JobEnv where
  modelName : String
  cancelBeforeLoad : Bool
  durationProbe : ℚ
  cancelAfterLoad : Bool
  segEnds : List ℚ
  transcribeError : Option String
  cancelAfterTranscribe : Bool
  writeError : Option String
  tRes : TRes
  t : ℚ
deriving DecidableEq

/-- The `job.progress` values actually written by the polling loop: an
iteration writes `min(95, lse/duration*100)` only when `duration > 0` and
`last_segment_end[0] > 0` (lines 315-320). -/
def pollWrites (d : ℚ) (segs : List ℚ) : List ℚ :=
  segs.filterMap (fun lse => if 0 < d ∧ 0 < lse then some (min 95 (lse / d * 100)) else none)

structure RunOut where
  job : JobRecord
  sys : SysState
  progressLog : List ℚ
deriving DecidableEq

/-- `run_transcription` (lines 249-358) as a state transformer.  The
branches appear in source order; every branch ends with the `finally`
block's unconditional `await model_manager.release_model()` (line 358).
`progressLog` records the successive values stored in `job.progress`,
starting from the `0.0` the record was created with.  The release
performed by a run that aborted before a successful `acquire_model` is an
orphan release: `holders` is unchanged while `_active_jobs` is
decremented. -/
def runTranscription (env : JobEnv) (s : SysState) : RunOut :=
  let j0 : JobRecord :=
    { initJob with
        status := .model_loading,
        message := some ("Loading model '" ++ env.modelName ++ "'..."),
        startTime := some env.t }
  if env.cancelBeforeLoad then
    { job := { j0 with status := .canceled, message := some "Canceled before model load" },
      sys := ⟨releaseModel env.t s.mgr, s.holders⟩,
      progressLog := [0] }
  else if env.durationProbe ≤ 0 then
    { job := { j0 with
        status := .failed,
        error := some "Could not determine audio duration",
        message := some "Transcription failed: Could not determine audio duration",
        endTime := some env.t },
      sys := ⟨releaseModel env.t s.mgr, s.holders⟩,
      progressLog := [0] }
  else
    let j1 := { j0 with duration := some env.durationProbe }
    let acq := acquireModel env.modelName env.t s.mgr
    match acq.2 with
    | .busy =>
      { job := { j1 with
          status := .failed,
          error := some ("Cannot switch models while " ++ toString acq.1.activeJobs ++ " jobs active"),
          message := some ("Transcription failed: Cannot switch models while " ++ toString acq.1.activeJobs ++ " jobs active"),
          endTime := some env.t },
        sys := ⟨releaseModel env.t acq.1, s.holders⟩,
        progressLog := [0] }
    | .ok =>
      if env.cancelAfterLoad then
        { job := { j1 with status := .canceled, message := some "Canceled after model load" },
          sys := ⟨releaseModel env.t acq.1, s.holders⟩,
          progressLog := [0] }
      else
        let pw := pollWrites env.durationProbe env.segEnds
        let pFinal := pw.getLastD 1
        match env.transcribeError with
        | some e =>
          { job := { j1 with
              status := .failed,
              progress := pFinal,
              error := some e,
              message := some ("Transcription failed: " ++ e),
              endTime := some env.t },
            sys := ⟨releaseModel env.t acq.1, s.holders⟩,
            progressLog := [0, 1] ++ pw }
        | none =>
          if env.cancelAfterTranscribe then
            { job := { j1 with
                status := .canceled,
                progress := pFinal,
                message := some "Canceled during transcription" },
              sys := ⟨releaseModel env.t acq.1, s.holders⟩,
              progressLog := [0, 1] ++ pw }
          else
            match env.writeError with
            | some e =>
              { job := { j1 with
                  status := .failed,
                  progress := pFinal,
                  error := some e,
                  message := some ("Transcription failed: " ++ e),
                  endTime := some env.t },
                sys := ⟨releaseModel env.t acq.1, s.holders⟩,
                progressLog := [0, 1] ++ pw }
            | none =>
              { job := { j1 with
                  status := .completed,
                  progress := 100,
                  result := some env.tRes,
                  message := some "Transcription completed",
                  endTime := some env.t },
                sys := ⟨releaseModel env.t acq.1, s.holders⟩,
                progressLog := [0, 1] ++ pw ++ [100] }

/-! ## The stream decoder `read_stream_lines` (server.py lines 54-108)

Python strings are embedded as lists of Unicode code points (`List Nat`);
byte streams as lists of bytes (`List Nat`). -/

/-- The line-boundary characters of Python `str.splitlines`. -/
def isBreakChar (n : Nat) : Bool :=
  decide (n = 10 ∨ n = 11 ∨ n = 12 ∨ n = 13 ∨ n = 28 ∨ n = 29 ∨ n = 30 ∨
          n = 133 ∨ n = 8232 ∨ n = 8233)

/-- The whitespace characters stripped by Python `str.strip()`. -/
def pyIsSpace (n : Nat) : Bool :=
  decide ((9 ≤ n ∧ n ≤ 13) ∨ n = 28 ∨ n = 29 ∨ n = 30 ∨ n = 31 ∨ n = 32 ∨
          n = 133 ∨ n = 160 ∨ n = 5760 ∨ (8192 ≤ n ∧ n ≤ 8202) ∨
          n = 8232 ∨ n = 8233 ∨ n = 8239 ∨ n = 8287 ∨ n = 12288)

/-- Python `str.strip()`. -/
def pyStrip (l : List Nat) : List Nat :=
  ((l.dropWhile pyIsSpace).reverse.dropWhile pyIsSpace).reverse

/-- `c` is neither a line feed nor a carriage return (the only two
line-end characters the buffering test on line 96 looks at). -/
def notNL (c : Nat) : Bool := decide (c ≠ 10 ∧ c ≠ 13)

/-- State of the left-to-right scan implementing `str.splitlines`:
completed lines, the reversed current line, and whether the previous
character was a carriage return (so that a following newline is absorbed
as part of one `\r\n` boundary). -/
structure SLSt where
  lines : List (List Nat)
  acc : List Nat
  afterCR : Bool
deriving DecidableEq

def slStep (st : SLSt) (c : Nat) : SLSt :=
  if st.afterCR = true ∧ c = 10 then
    { st with afterCR := false }
  else if c = 13 then
    { lines := st.lines ++ [st.acc.reverse], acc := [], afterCR := true }
  else if isBreakChar c then
    { lines := st.lines ++ [st.acc.reverse], acc := [], afterCR := false }
  else
    { st with acc := c :: st.acc, afterCR := false }

def slFinish (st : SLSt) : List (List Nat) :=
  if st.acc = [] then st.lines else st.lines ++ [st.acc.reverse]

/-- Python `str.splitlines()` (keepends = False). -/
def pySplitLines (s : List Nat) : List (List Nat) :=
  slFinish (s.foldl slStep ⟨[], [], false⟩)

/-- `line_content.strip()` and the `if stripped_line:` filter applied to a
list of complete lines (server.py lines 105-108). -/
def stripNonempty (lines : List (List Nat)) : List (List Nat) :=
  lines.filterMap (fun l => let t := pyStrip l; if t = [] then none else some t)

/-- `text_data.endswith('\n') or text_data.endswith('\r')`
(the negation of the condition on line 96). -/
def endsNL (l : List Nat) : Bool :=
  match l.getLast? with
  | some c => !notNL c
  | none => false

/-- One iteration of the read loop of `read_stream_lines` (lines 86-108)
on an already decoded chunk: state is (lines yielded so far, partial line
buffer); the decoded chunk is appended to the buffer, split into lines,
a trailing partial line (if the text does not end in a newline) is put
back into the buffer, and the remaining complete lines are stripped and
yielded when nonempty. -/
def stepChunkStr (st : List (List Nat) × List Nat) (decoded : List Nat) :
    List (List Nat) × List Nat :=
  let text := st.2 ++ decoded
  let lines := pySplitLines text
  if text = [] then (st.1, [])
  else if endsNL text then (st.1 ++ stripNonempty lines, [])
  else (st.1 ++ stripNonempty lines.dropLast, lines.getLastD [])

def contByte (b : Nat) : Bool := decide (128 ≤ b ∧ b ≤ 191)

/-- Valid second byte of a three-byte sequence led by `b` (UTF-8 excludes
overlong encodings and surrogates, as CPython's decoder does). -/
def cont3a (b b1 : Nat) : Bool :=
  if b = 224 then decide (160 ≤ b1 ∧ b1 ≤ 191)
  else if b = 237 then decide (128 ≤ b1 ∧ b1 ≤ 159)
  else contByte b1

/-- Valid second byte of a four-byte sequence led by `b`. -/
def cont4a (b b1 : Nat) : Bool :=
  if b = 240 then decide (144 ≤ b1 ∧ b1 ≤ 191)
  else if b = 244 then decide (128 ≤ b1 ∧ b1 ≤ 143)
  else contByte b1

/-- `chunk.decode('utf-8', errors='ignore')` (server.py line 87): UTF-8
decoding where each maximal invalid subpart is dropped and decoding
continues with the next byte. -/
def utf8DecodeIgnore : List Nat → List Nat
  | [] => []
  | b :: rest =>
    if b < 128 then b :: utf8DecodeIgnore rest
    else if 194 ≤ b ∧ b ≤ 223 then
      match rest with
      | [] => []
      | b1 :: rest1 =>
        if contByte b1 then ((b - 192) * 64 + (b1 - 128)) :: utf8DecodeIgnore rest1
        else utf8DecodeIgnore (b1 :: rest1)
    else if 224 ≤ b ∧ b ≤ 239 then
      match rest with
      | [] => []
      | b1 :: rest1 =>
        if cont3a b b1 then
          match rest1 with
          | [] => []
          | b2 :: rest2 =>
            if contByte b2 then
              ((b - 224) * 4096 + (b1 - 128) * 64 + (b2 - 128)) :: utf8DecodeIgnore rest2
            else utf8DecodeIgnore (b2 :: rest2)
        else utf8DecodeIgnore (b1 :: rest1)
    else if 240 ≤ b ∧ b ≤ 244 then
      match rest with
      | [] => []
      | b1 :: rest1 =>
        if cont4a b b1 then
          match rest1 with
          | [] => []
          | b2 :: rest2 =>
            if contByte b2 then
              match rest2 with
              | [] => []
              | b3 :: rest3 =>
                if contByte b3 then
                  ((b - 240) * 262144 + (b1 - 128) * 4096 + (b2 - 128) * 64 + (b3 - 128)) ::
                    utf8DecodeIgnore rest3
                else utf8DecodeIgnore (b3 :: rest3)
            else utf8DecodeIgnore (b2 :: rest2)
        else utf8DecodeIgnore (b1 :: rest1)
    else utf8DecodeIgnore rest

/-- UTF-8 encoding of one Unicode scalar value. -/
def utf8EncodeChar (n : Nat) : List Nat :=
  if n < 128 then [n]
  else if n < 2048 then [192 + n / 64, 128 + n % 64]
  else if n < 65536 then [224 + n / 4096, 128 + n / 64 % 64, 128 + n % 64]
  else [240 + n / 262144, 128 + n / 4096 % 64, 128 + n / 64 % 64, 128 + n % 64]

def utf8Encode : List Nat → List Nat
  | [] => []
  | c :: rest => utf8EncodeChar c ++ utf8Encode rest

/-- A valid Unicode scalar value (what a Python `str` code point can be,
excluding the surrogates that UTF-8 cannot carry). -/
def isScalar (n : Nat) : Bool :=
  decide (n < 1114112 ∧ ¬(55296 ≤ n ∧ n < 57344))

/-- One read-loop iteration of `read_stream_lines` on a raw byte chunk:
the chunk is decoded with `errors='ignore'` and then processed as text
(lines 87-108).  Note each chunk is decoded separately. -/
def stepChunkBytes (st : List (List Nat) × List Nat) (chunk : List Nat) :
    List (List Nat) × List Nat :=
  stepChunkStr st (utf8DecodeIgnore chunk)

/-- EOF handling (lines 80-84): a nonempty stripped partial buffer is
yielded last. -/
def flushStream (st : List (List Nat) × List Nat) : List (List Nat) :=
  st.1 ++ (let t := pyStrip st.2; if t = [] then [] else [t])

/-- The full sequence of lines yielded by `read_stream_lines` when the
stream delivers the given byte chunks followed by EOF (the job staying
non-terminal throughout, so the loop never breaks early). -/
def readStreamLines (chunks : List (List Nat)) : List (List Nat) :=
  flushStream (chunks.foldl stepChunkBytes ([], []))

/-! ## The subprocess supervisor `run_transcription_process` (server.py lines 112-276) -/

/-- Python `round` to the nearest integer with ties to even (the semantics
of the built-in `round`), on exact rationals. -/
def pyRoundInt (x : ℚ) : ℤ :=
  let f := ⌊x⌋
  let r := x - f
  if r < 1/2 then f
  else if 1/2 < r then f + 1
  else if f % 2 = 0 then f else f + 1

/-- `round(progress_val, 2)` (server.py line 173). -/
def pyRound2 (x : ℚ) : ℚ := (pyRoundInt (x * 100) : ℚ) / 100

def isDigitB (n : Nat) : Bool := decide (48 ≤ n ∧ n ≤ 57)

def dval (n : Nat) : Nat := n - 48

/-- After the minute(s) of a time group, the regex
`\d{1,2}:\d{2}\.\d{3}` requires literally `:` two digits `.` three
digits; returns (seconds, milliseconds, rest). -/
def parseTimeTail : List Nat → Option (Nat × Nat × List Nat)
  | 58 :: a :: b :: 46 :: c :: d :: e :: rest =>
    if isDigitB a ∧ isDigitB b ∧ isDigitB c ∧ isDigitB d ∧ isDigitB e then
      some (dval a * 10 + dval b, dval c * 100 + dval d * 10 + dval e, rest)
    else none
  | _ => none

/-- One capture group `(\d{1,2}:\d{2}\.\d{3})` of the fallback pattern
(server.py line 127), with the regex engine's greedy `\d{1,2}` and its
backtracking; returns (minutes, seconds, milliseconds, rest). -/
def parseTimeG : List Nat → Option (Nat × Nat × Nat × List Nat)
  | [] => none
  | a :: rest =>
    if isDigitB a then
      match rest with
      | [] => none
      | b :: rest2 =>
        if isDigitB b then
          match parseTimeTail rest2 with
          | some (ss, ms, r) => some (dval a * 10 + dval b, ss, ms, r)
          | none =>
            match parseTimeTail (b :: rest2) with
            | some (ss, ms, r) => some (dval a, ss, ms, r)
            | none => none
        else
          match parseTimeTail (b :: rest2) with
          | some (ss, ms, r) => some (dval a, ss, ms, r)
          | none => none
    else none

/-- `progress_regex.match(line)` for
`^\[(\d{1,2}:\d{2}\.\d{3})\s*-->\s*(\d{1,2}:\d{2}\.\d{3})\]`
(server.py line 127), returning the second (end) capture group.  `\s` is
Python's Unicode whitespace. -/
def progressMatch (line : List Nat) : Option (Nat × Nat × Nat) :=
  match line with
  | 91 :: r0 =>
    match parseTimeG r0 with
    | some (_, _, _, r1) =>
      match r1.dropWhile pyIsSpace with
      | 45 :: 45 :: 62 :: r3 =>
        match parseTimeG (r3.dropWhile pyIsSpace) with
        | some (m2, s2, ms2, r5) =>
          match r5 with
          | 93 :: _ => some (m2, s2, ms2)
          | _ => none
        | none => none
      | _ => none
    | none => none
  | _ => none

/-- `parse_whisper_time` (server.py lines 40-44) applied to a matched
group, which always has the two-part form `M[M]:SS.mmm`:
`int(minutes) * 60 + float(seconds)`. -/
def timeValQ (m ss ms : Nat) : ℚ := m * 60 + ss + (ms : ℚ) / 1000

/-- The `json.JSONDecodeError` fallback branch of `process_stdout_stream`
(server.py lines 164-173) restricted to its effect on the stored progress:
returns `some p` when the branch stores a new progress `p`, `none` when it
leaves the job unchanged. -/
def fallbackUpdate (line : List Nat) (dur : Option ℚ) (cur : ℚ) : Option ℚ :=
  match progressMatch line with
  | some (m, ss, ms) =>
    match dur with
    | some d =>
      if 0 < d then
        let v := min (timeValQ m ss ms / d * 100) 100
        if cur < v then some (pyRound2 v) else none
      else none
    | none => none
  | none => none

/-- The stored progress after the fallback branch processed `line`. -/
def applyFallback (line : List Nat) (dur : Option ℚ) (cur : ℚ) : ℚ :=
  (fallbackUpdate line dur cur).getD cur

/-- Claim-following comparison definition for C7 (spec §4.5): a time group
may also have the `HH:MM:SS.mmm` form; returns (hours, minutes, seconds,
milliseconds, rest). -/
def specParseTimeC7 : List Nat → Option (Nat × Nat × Nat × Nat × List Nat)
  | [] => none
  | a :: rest =>
    if isDigitB a then
      match rest with
      | [] => none
      | b :: rest2 =>
        if isDigitB b then
          match parseTimeTail rest2 with
          | some (ss, ms, r) => some (0, dval a * 10 + dval b, ss, ms, r)
          | none =>
            match rest2 with
            | 58 :: r3 =>
              match parseTimeG r3 with
              | some (m, ss, ms, r) => some (dval a * 10 + dval b, m, ss, ms, r)
              | none => none
            | _ => none
        else
          match parseTimeTail (b :: rest2) with
          | some (ss, ms, r) => some (0, dval a, ss, ms, r)
          | none =>
            match b :: rest2 with
            | 58 :: r3 =>
              match parseTimeG r3 with
              | some (m, ss, ms, r) => some (dval a, m, ss, ms, r)
              | none => none
            | _ => none
    else none

/-- Claim-following comparison definition for C7: the fallback matcher as
the claim states it, accepting `MM:SS.mmm` or `HH:MM:SS.mmm` times. -/
def specProgressMatchC7 (line : List Nat) : Option (Nat × Nat × Nat × Nat) :=
  match line with
  | 91 :: r0 =>
    match specParseTimeC7 r0 with
    | some (_, _, _, _, r1) =>
      match r1.dropWhile pyIsSpace with
      | 45 :: 45 :: 62 :: r3 =>
        match specParseTimeC7 (r3.dropWhile pyIsSpace) with
        | some (h2, m2, s2, ms2, r5) =>
          match r5 with
          | 93 :: _ => some (h2, m2, s2, ms2)
          | _ => none
        | none => none
      | _ => none
    | none => none
  | _ => none

/-- Claim-following comparison definition for C7: the progress update the
claim mandates ("the end timestamp is converted to seconds and ... the
progress min(endSeconds / totalDuration * 100, 100) rounded to two
decimals is stored provided it is strictly greater than the current
stored progress"). -/
def specFallbackUpdateC7 (line : List Nat) (dur : Option ℚ) (cur : ℚ) : Option ℚ :=
  match specProgressMatchC7 line with
  | some (h, m, ss, ms) =>
    match dur with
    | some d =>
      if 0 < d then
        let v := min ((h * 3600 + timeValQ m ss ms) / d * 100) 100
        if cur < v then some (pyRound2 v) else none
      else none
    | none => none
  | none => none

inductive SStatus
  | queued
  | model_loading
  | model_downloading
  | processing
  | transcribing
  | completed
  | failed
  | canceled
  | canceling
deriving DecidableEq

def isTerminalS : SStatus → Bool
  | .failed => true
  | .canceled => true
  | .completed => true
  | _ => false

structure SJob where
  status : SStatus
  progress : ℚ
  result : Option String
  error : Option String
  message : Option String
deriving DecidableEq

/-- The state of the result artifact at `output_path` when the subprocess
has exited (server.py lines 220-230): absent, present but unreadable or
unparseable (with the exception text), or present and parsed. -/
inductive Artifact
  | missing
  | unreadable (msg : String)
  | parsed (data : String)
deriving DecidableEq

/-- The final status check of `run_transcription_process` after the
subprocess exited with code `rc` (server.py lines 215-234). -/
def finalizeAfterExit (rc : Int) (art : Artifact) (j : SJob) : SJob :=
  if rc = 0 ∧ isTerminalS j.status = false then
    match art with
    | .parsed d =>
      { j with status := .completed, result := some d, progress := 100,
               message := some "Transcription complete." }
    | .unreadable m =>
      { j with status := .failed,
               error := some ("Failed to read result file: " ++ m),
               message := some "Error processing result." }
    | .missing =>
      { j with status := .failed,
               error := some "Output file missing after successful process exit.",
               message := some "Output file missing." }
  else if isTerminalS j.status = false then
    { j with status := .failed,
             error := some (j.error.getD ("Process exited with code " ++ toString rc ++ ".")),
             message := some (j.message.getD ("Process exited with code " ++ toString rc ++ ".")) }
  else j

/-! ## Claim-following comparison orchestrator for C9, and concrete inputs -/

/-- Claim-following comparison definition for C9 (spec §4.4): the same
orchestrator, except that the cancel flag is also checked at each progress
update boundary during execution, so a flag raised during execution leads
to `canceled` at the first boundary without further execution (the
placeholder progress 1.0 is never overwritten and the transcription's
remaining work is abandoned). -/
def runTranscriptionClaimC9 (env : JobEnv) (s : SysState) : RunOut :=
  let j0 : JobRecord :=
    { initJob with
        status := .model_loading,
        message := some ("Loading model '" ++ env.modelName ++ "'..."),
        startTime := some env.t }
  if env.cancelBeforeLoad then
    { job := { j0 with status := .canceled, message := some "Canceled before model load" },
      sys := ⟨releaseModel env.t s.mgr, s.holders⟩,
      progressLog := [0] }
  else if env.durationProbe ≤ 0 then
    { job := { j0 with
        status := .failed,
        error := some "Could not determine audio duration",
        message := some "Transcription failed: Could not determine audio duration",
        endTime := some env.t },
      sys := ⟨releaseModel env.t s.mgr, s.holders⟩,
      progressLog := [0] }
  else
    let j1 := { j0 with duration := some env.durationProbe }
    let acq := acquireModel env.modelName env.t s.mgr
    match acq.2 with
    | .busy =>
      { job := { j1 with
          status := .failed,
          error := some ("Cannot switch models while " ++ toString acq.1.activeJobs ++ " jobs active"),
          message := some ("Transcription failed: Cannot switch models while " ++ toString acq.1.activeJobs ++ " jobs active"),
          endTime := some env.t },
        sys := ⟨releaseModel env.t acq.1, s.holders⟩,
        progressLog := [0] }
    | .ok =>
      if env.cancelAfterLoad then
        { job := { j1 with status := .canceled, message := some "Canceled after model load" },
          sys := ⟨releaseModel env.t acq.1, s.holders⟩,
          progressLog := [0] }
      else if env.cancelAfterTranscribe then
        { job := { j1 with
            status := .canceled,
            progress := 1,
            message := some "Canceled during transcription" },
          sys := ⟨releaseModel env.t acq.1, s.holders⟩,
          progressLog := [0, 1] }
      else
        let pw := pollWrites env.durationProbe env.segEnds
        let pFinal := pw.getLastD 1
        match env.transcribeError with
        | some e =>
          { job := { j1 with
              status := .failed,
              progress := pFinal,
              error := some e,
              message := some ("Transcription failed: " ++ e),
              endTime := some env.t },
            sys := ⟨releaseModel env.t acq.1, s.holders⟩,
            progressLog := [0, 1] ++ pw }
        | none =>
          match env.writeError with
          | some e =>
            { job := { j1 with
                status := .failed,
                progress := pFinal,
                error := some e,
                message := some ("Transcription failed: " ++ e),
                endTime := some env.t },
              sys := ⟨releaseModel env.t acq.1, s.holders⟩,
              progressLog := [0, 1] ++ pw }
          | none =>
            { job := { j1 with
                status := .completed,
                progress := 100,
                result := some env.tRes,
                message := some "Transcription completed",
                endTime := some env.t },
              sys := ⟨releaseModel env.t acq.1, s.holders⟩,
              progressLog := [0, 1] ++ pw ++ [100] }

/-- A run whose cancel flag is already set at the first checkpoint
(line 262): e.g. `/cancel` was called while the job was queued. -/
def envCancelBeforeLoad : JobEnv :=
  ⟨"tiny", true, 10, false, [], none, false, none, ⟨"", "en"⟩, 5⟩

/-- A successful run of a 100-second audio file whose first polled
segment ends at 0.1 s. -/
def envSmallFirstSegment : JobEnv :=
  ⟨"tiny", false, 100, false, [1/10], none, false, none, ⟨"hi", "en"⟩, 5⟩

/-- A run during whose execution the cancel flag is raised; the poll loop
then observes a segment ending at 50 s of the 100 s file. -/
def envCancelDuringExec : JobEnv :=
  ⟨"tiny", false, 100, false, [50], none, true, none, ⟨"hi", "en"⟩, 5⟩

/-- Job A acquires the model at t=0; job B aborts before its own acquire
and its finally-block release runs at t=1 (possible whenever
`WHISPER_MAX_CONCURRENCY > 1`); the idle task armed by that release fires
at t=301. -/
def traceUnloadWhileHeld : List MEvent :=
  [.acquire "tiny" 0, .releaseOrphan 1, .idleFire 301]

/-- The code points of `"[00:00:01.000 --> 00:01:40.000]"`, a fallback
line with `HH:MM:SS.mmm` timestamps. -/
def hmsLineC7 : List Nat :=
  [91, 48, 48, 58, 48, 48, 58, 48, 49, 46, 48, 48, 48, 32, 45, 45, 62, 32,
   48, 48, 58, 48, 49, 58, 52, 48, 46, 48, 48, 48, 93]

/-- Decidable check that a list of stored progress values never
decreases. -/
def nondecr : List ℚ → Bool
  | [] => true
  | [_] => true
  | a :: b :: r => decide (a ≤ b) && nondecr (b :: r)

/-- Rendering of `n ≤ 99` as two ASCII digits. -/
def toD2 (n : Nat) : List Nat := [48 + n / 10, 48 + n % 10]

/-- Rendering of `n ≤ 999` as three ASCII digits. -/
def toD3 (n : Nat) : List Nat := [48 + n / 100, 48 + n / 10 % 10, 48 + n % 10]

/-- A fallback line `[MM:SS.mmm --> MM:SS.mmm]⟨rest⟩` with two-digit
minute fields. -/
def mkProgressLine (m1 s1 ms1 m2 s2 ms2 : Nat) (rest : List Nat) : List Nat :=
  [91] ++ toD2 m1 ++ [58] ++ toD2 s1 ++ [46] ++ toD3 ms1 ++
  [32, 45, 45, 62, 32] ++ toD2 m2 ++ [58] ++ toD2 s2 ++ [46] ++ toD3 ms2 ++
  [93] ++ rest

/-- A manager holding model "base" with one active job. -/
def mgrBusyWitness : Mgr := ⟨some "base", some "base", 1, 20, none⟩

/-- A job record in the `transcribing` state. -/
def sjobWitness : SJob := ⟨.transcribing, 40, none, none, some "Transcribing."⟩

/-! ## Character-level helpers used by the stream-decoder proofs -/

/-- The maximal suffix of `l` holding no `\n`/`\r`: the partial line the
reader keeps buffered. -/
def afterLastNL (l : List Nat) : List Nat := (l.reverse.takeWhile notNL).reverse

/-- The prefix of `l` up to and including its last `\n`/`\r`. -/
def beforeLastNL (l : List Nat) : List Nat := (l.reverse.dropWhile notNL).reverse

def noBreak (l : List Nat) : Bool := l.all fun c => !isBreakChar c

/-- The complete stripped nonempty lines of a whole text: what the reader
yields for it in total. -/
def canonicalLines (t : List Nat) : List (List Nat) := stripNonempty (pySplitLines t)

/-- A run canceled at the second checkpoint (line 274), right after the
model was acquired. -/
def envCancelAfterLoad : JobEnv :=
  ⟨"tiny", false, 100, true, [], none, false, none, ⟨"", "en"⟩, 5⟩

/-- Invariant used for the idle-eviction safety argument, relative to an
arming instant `a`: every armed task was armed at or after `a`, and while
the task armed at `a` itself is still pending, either the slot was touched
after `a` or jobs are active. -/
def armedGuard (a : ℚ) (s : SysState) : Prop :=
  (∀ b, s.mgr.idleArmed = some b → a ≤ b) ∧
  (s.mgr.idleArmed = some a → (a < s.mgr.lastUsed ∨ 0 < s.mgr.activeJobs))

/-- A state with a loaded idle model whose timer was armed at t=0. -/
def sysFireWitness : SysState := ⟨⟨some "tiny", some "tiny", 0, 0, some 0⟩, 0⟩

/-- A state with a loaded idle model whose timer was armed at t=10. -/
def sysAcquireWitness : SysState := ⟨⟨some "tiny", some "tiny", 0, 5, some 10⟩, 0⟩

/-- A Python line-boundary character other than `\n`/`\r` (these are
split by `str.splitlines` but invisible to the reader's
`endswith`-based buffering test). -/
def isExoticBreak (n : Nat) : Bool := isBreakChar n && notNL n

/-- The prefix of a text up to and including its last `\n`/`\r` is empty
or ends with a line break. -/
def endsBreak (P : List Nat) : Prop :=
  P = [] ∨ ∃ c, P.getLast? = some c ∧ isBreakChar c = true

/-! # Theorems -/

/-- C1: the code violates the claimed invariant.  Evaluating the
orchestrator at the failing input — a single job from the initial state
whose cancel flag is already set at the checkpoint before model load —
shows `_active_jobs` driven to `-1` (negative, and below the number of
in-flight acquisitions, which is 0) because `run_transcription`'s
`finally` block calls `release_model` even though `acquire_model` never
ran. -/
theorem c1_refcount_goes_negative :
    (runTranscription envCancelBeforeLoad initSys).sys.mgr.activeJobs = -1 ∧
    (runTranscription envCancelBeforeLoad initSys).sys.holders = 0 := by
  constructor <;> rfl

/-- C2: an `acquire_model` call made while the slot holds a model with a
different name and `_active_jobs > 0` fails with the ResourceBusy-style
`RuntimeError` (embedded as `.busy`); the in-use model is not unloaded,
and the requested one is not loaded. -/
theorem c2_switch_refused_while_busy (m : Mgr) (name : String) (now : ℚ)
    (hload : m.model.isSome) (hdiff : m.modelName ≠ some name)
    (hact : 0 < m.activeJobs) :
    (acquireModel name now m).2 = .busy ∧
    (acquireModel name now m).1.model = m.model ∧
    (acquireModel name now m).1.modelName ≠ some name := by
  have hc : m.model.isSome ∧ m.modelName ≠ some name := ⟨hload, hdiff⟩
  have he : acquireModel name now m = (m, .busy) := by
    unfold acquireModel
    rw [if_pos hc, if_pos hact]
  rw [he]
  exact ⟨rfl, rfl, hdiff⟩

theorem c2_switch_refused_while_busy_witness :
    (acquireModel "tiny" 21 mgrBusyWitness).2 = .busy ∧
    (acquireModel "tiny" 21 mgrBusyWitness).1.model = mgrBusyWitness.model ∧
    (acquireModel "tiny" 21 mgrBusyWitness).1.modelName ≠ some "tiny" :=
  c2_switch_refused_while_busy mgrBusyWitness "tiny" 21 rfl (by decide) (by decide)

/-- C10: a ResourceBusy failure of `acquire_model` is atomic — the
`RuntimeError` is raised before any mutation, so the whole manager state
(loaded model, its name, `_active_jobs`, `_last_used`, and the pending
idle task) is exactly what it was before the call. -/
theorem c10_busy_failure_is_atomic (m : Mgr) (name : String) (now : ℚ)
    (hload : m.model.isSome) (hdiff : m.modelName ≠ some name)
    (hact : 0 < m.activeJobs) :
    acquireModel name now m = (m, .busy) := by
  have hc : m.model.isSome ∧ m.modelName ≠ some name := ⟨hload, hdiff⟩
  unfold acquireModel
  rw [if_pos hc, if_pos hact]

theorem c10_busy_failure_is_atomic_witness :
    acquireModel "small" 22 mgrBusyWitness = (mgrBusyWitness, .busy) :=
  c10_busy_failure_is_atomic mgrBusyWitness "small" 22 rfl (by decide) (by decide)

/-- C8: after a clean exit (code 0) of the subprocess with the job not yet
terminal, a missing result artifact produces `failed` with the explicit
output-missing error (never `completed`), and a present but
unreadable/unparseable artifact produces `failed` with a descriptive
error. -/
theorem c8_missing_artifact_fails (j : SJob) (h : isTerminalS j.status = false) :
    ((finalizeAfterExit 0 .missing j).status = .failed ∧
     (finalizeAfterExit 0 .missing j).error =
       some "Output file missing after successful process exit." ∧
     (finalizeAfterExit 0 .missing j).status ≠ .completed) ∧
    ∀ msg : String,
      (finalizeAfterExit 0 (.unreadable msg) j).status = .failed ∧
      (finalizeAfterExit 0 (.unreadable msg) j).error =
        some ("Failed to read result file: " ++ msg) := by
  have hc : (0 : Int) = 0 ∧ isTerminalS j.status = false := ⟨rfl, h⟩
  constructor
  · unfold finalizeAfterExit
    rw [if_pos hc]
    exact ⟨rfl, rfl, fun hcon => nomatch hcon⟩
  · intro msg
    unfold finalizeAfterExit
    rw [if_pos hc]
    exact ⟨rfl, rfl⟩

theorem c8_missing_artifact_fails_witness :
    ((finalizeAfterExit 0 .missing sjobWitness).status = .failed ∧
     (finalizeAfterExit 0 .missing sjobWitness).error =
       some "Output file missing after successful process exit." ∧
     (finalizeAfterExit 0 .missing sjobWitness).status ≠ .completed) ∧
    ∀ msg : String,
      (finalizeAfterExit 0 (.unreadable msg) sjobWitness).status = .failed ∧
      (finalizeAfterExit 0 (.unreadable msg) sjobWitness).error =
        some ("Failed to read result file: " ++ msg) :=
  c8_missing_artifact_fails sjobWitness rfl

/-- C5 counterexample: a job canceled at the first checkpoint reaches the
terminal state `canceled` with `error = None` and `end_time = None` — the
claim "error is populated iff the state is failed or canceled ... and the
end timestamp is set ... including on every cancellation path" is false on
the code (lines 262-265 set neither). -/
theorem c5_cex_canceled_without_error_or_endtime :
    (runTranscription envCancelBeforeLoad initSys).job.status = .canceled ∧
    (runTranscription envCancelBeforeLoad initSys).job.error = none ∧
    (runTranscription envCancelBeforeLoad initSys).job.endTime = none := by
  exact ⟨rfl, rfl, rfl⟩

/-- C6 counterexample: the stored progress of a successful job regresses.
With duration 100 s, the code stores the placeholder 1.0 (line 281) and
the first poll iteration then stores `min(95, 0.1/100*100) = 0.1 < 1.0`
(lines 315-320), so the stored sequence `[0, 1, 0.1, 100]` is not
non-decreasing. -/
theorem c6_cex_progress_regresses :
    nondecr (runTranscription envSmallFirstSegment initSys).progressLog = false := by
  decide

/-- C3 counterexample: with two concurrently admitted runs
(`WHISPER_MAX_CONCURRENCY > 1`), job A acquires the model at t=0 and keeps
transcribing; job B aborts before its own acquire and its finally-block
`release_model` at t=1 drops `_active_jobs` to 0 and arms the idle timer;
when that timer fires at t=301 the idle check (count 0, elapsed ≥ 300)
passes and the model is unloaded while A still holds it — refuting "a
model can never be unloaded while a job holds it". -/
theorem c3_cex_unload_while_held :
    ((traceUnloadWhileHeld.take 2).foldl stepEv initSys).mgr.model = some "tiny" ∧
    (traceUnloadWhileHeld.foldl stepEv initSys).mgr.model = none ∧
    (traceUnloadWhileHeld.foldl stepEv initSys).holders = 1 := by
  decide

/-- C4 counterexample: the line "é\n" (bytes C3 A9 0A) split between the
two bytes of the multi-byte character yields no line at all (each chunk is
decoded separately with errors='ignore', so both halves of the character
are dropped), while the unsplit stream yields the line "é". -/
theorem c4_cex_split_inside_multibyte :
    readStreamLines [[195], [169, 10]] ≠ readStreamLines [[195, 169, 10]] := by
  decide

/-- C7 counterexample: on the fallback line
"[00:00:01.000 --> 00:01:40.000]" with known duration 200 s and stored
progress 0, the claim mandates storing 50.0 (the `HH:MM:SS.mmm` end time
100 s gives `min(100/200*100, 100) = 50 > 0`), but the code's pattern
`\d{1,2}:\d{2}\.\d{3}` never matches an `HH:MM:SS.mmm` time, so no
update happens. -/
theorem c7_cex_hms_not_matched :
    fallbackUpdate hmsLineC7 (some 200) 0 = none ∧
    specFallbackUpdateC7 hmsLineC7 (some 200) 0 = some 50 := by
  decide

/-- C9 counterexample: with the cancel flag raised during execution, the
faithful orchestrator keeps executing — the poll loop stores progress 50
and only the check after the transcription task completes (line 325)
cancels — whereas the claim's orchestrator (checking the flag at each
progress update boundary) would have canceled at the first boundary with
the placeholder progress 1 and no further execution. -/
theorem c9_cex_no_check_at_progress_boundary :
    (runTranscription envCancelDuringExec initSys).job.status = .canceled ∧
    (runTranscription envCancelDuringExec initSys).job.progress = 50 ∧
    (runTranscriptionClaimC9 envCancelDuringExec initSys).job.progress = 1 := by
  decide


/-- C5 (amended): in the in-process orchestrator, for every environment
and every starting state the job ends terminal with `result` populated iff
`completed`, `error` populated iff `failed`, and `end_time` set iff the
terminal state is `completed` or `failed` — canceled jobs carry neither an
error nor an end timestamp. -/
theorem c5_amended_terminal_record_shape (env : JobEnv) (s : SysState) :
    ((runTranscription env s).job.result.isSome ↔ (runTranscription env s).job.status = .completed) ∧
    ((runTranscription env s).job.error.isSome ↔ (runTranscription env s).job.status = .failed) ∧
    ((runTranscription env s).job.endTime.isSome ↔
      ((runTranscription env s).job.status = .completed ∨ (runTranscription env s).job.status = .failed)) ∧
    ((runTranscription env s).job.status = .completed ∨ (runTranscription env s).job.status = .failed ∨
      (runTranscription env s).job.status = .canceled) := by
  unfold runTranscription
  rcases hacq : acquireModel env.modelName env.t s.mgr with ⟨m1, o⟩
  simp only [hacq]
  cases o <;> repeat' split
  all_goals try simp [initJob]

/-- Python `round` never rounds below the floor. -/
theorem pyRoundInt_ge_floor (x : ℚ) : ⌊x⌋ ≤ pyRoundInt x := by
  unfold pyRoundInt
  dsimp only
  split_ifs <;> omega

/-- Rounding `v` to two decimals cannot go below a two-decimal bound that
`v` strictly exceeds. -/
theorem le_pyRound2_of_lt (k : ℤ) (v : ℚ) (h : (k : ℚ) / 100 < v) :
    (k : ℚ) / 100 ≤ pyRound2 v := by
  have h100 : (0 : ℚ) < 100 := by norm_num
  have h1 : (k : ℚ) < v * 100 := (div_lt_iff₀ h100).mp h
  have h2 : (k : ℤ) ≤ ⌊v * 100⌋ := Int.le_floor.mpr h1.le
  have h3 : (k : ℤ) ≤ pyRoundInt (v * 100) := le_trans h2 (pyRoundInt_ge_floor _)
  have h4 : (k : ℚ) ≤ (pyRoundInt (v * 100) : ℚ) := Int.cast_le.mpr h3
  unfold pyRound2
  exact (div_le_div_iff_of_pos_right h100).mpr h4

/-- C6 (amended): only the subprocess server's timestamp-fallback update
is guarded against regressions, and it indeed never lowers the stored
progress as long as the current value has (at most) two decimals — which
holds whenever progress was only ever set by that same fallback or is
still the initial 0.  (The in-process poll loop and explicit progress
events store unconditionally and may regress, as the counterexample
shows.) -/
theorem c6_amended_fallback_never_regresses (line : List Nat) (dur : Option ℚ)
    (cur : ℚ) (k : ℤ) (hk : cur = (k : ℚ) / 100) :
    cur ≤ applyFallback line dur cur := by
  unfold applyFallback fallbackUpdate
  rcases hpm : progressMatch line with _ | ⟨m, ss, ms⟩
  · simp
  · rcases dur with _ | d
    · simp
    · simp only
      split_ifs with hd hcv
      · simp only [Option.getD_some]
        rw [hk] at hcv ⊢
        exact le_pyRound2_of_lt k _ hcv
      · simp
      · simp

theorem c6_amended_fallback_never_regresses_witness :
    (0 : ℚ) ≤ applyFallback (mkProgressLine 0 0 0 1 40 0 []) (some 200) 0 :=
  c6_amended_fallback_never_regresses (mkProgressLine 0 0 0 1 40 0 []) (some 200) 0 0
    (by norm_num)

/-- C9 (amended): the orchestrator checks the cancel flag (a) before
committing to load a model — a flag there cancels with nothing loaded and
no execution — and (b) immediately after the model is acquired — a flag
there cancels before any execution, with the acquisition balanced by the
finally-block release.  There is no checkpoint at progress update
boundaries: a flag raised during execution is observed only by the check
that runs after the transcription task has completed, so the job is
canceled only after the full execution (the whole poll-write sequence is
produced). -/
theorem c9_amended_checkpoints :
    (∀ (env : JobEnv) (s : SysState), env.cancelBeforeLoad = true →
      (runTranscription env s).job.status = .canceled ∧
      (runTranscription env s).sys.mgr.model = s.mgr.model ∧
      (runTranscription env s).sys.holders = s.holders ∧
      (runTranscription env s).progressLog = [0]) ∧
    (∀ (env : JobEnv) (s : SysState), env.cancelBeforeLoad = false →
      ¬ env.durationProbe ≤ 0 →
      (acquireModel env.modelName env.t s.mgr).2 = .ok →
      env.cancelAfterLoad = true →
      (runTranscription env s).job.status = .canceled ∧
      (runTranscription env s).sys.holders = s.holders ∧
      (runTranscription env s).progressLog = [0]) ∧
    (∀ (env : JobEnv) (s : SysState), env.cancelBeforeLoad = false →
      ¬ env.durationProbe ≤ 0 →
      (acquireModel env.modelName env.t s.mgr).2 = .ok →
      env.cancelAfterLoad = false →
      env.transcribeError = none →
      env.cancelAfterTranscribe = true →
      (runTranscription env s).job.status = .canceled ∧
      (runTranscription env s).progressLog = [0, 1] ++ pollWrites env.durationProbe env.segEnds) := by
  refine ⟨?_, ?_, ?_⟩
  · intro env s h1
    unfold runTranscription
    simp [h1, releaseModel]
  · intro env s h1 h2 hacq h3
    unfold runTranscription
    rcases hA : acquireModel env.modelName env.t s.mgr with ⟨m1, o⟩
    rw [hA] at hacq
    simp only at hacq
    subst hacq
    simp [h1, h2, h3, hA]
  · intro env s h1 h2 hacq h3 h4 h5
    unfold runTranscription
    rcases hA : acquireModel env.modelName env.t s.mgr with ⟨m1, o⟩
    rw [hA] at hacq
    simp only at hacq
    subst hacq
    simp [h1, h2, h3, h4, h5, hA]

theorem c9_amended_checkpoints_witness :
    ((runTranscription envCancelBeforeLoad initSys).job.status = .canceled ∧
     (runTranscription envCancelBeforeLoad initSys).sys.mgr.model = initSys.mgr.model ∧
     (runTranscription envCancelBeforeLoad initSys).sys.holders = initSys.holders ∧
     (runTranscription envCancelBeforeLoad initSys).progressLog = [0]) ∧
    ((runTranscription envCancelAfterLoad initSys).job.status = .canceled ∧
     (runTranscription envCancelAfterLoad initSys).sys.holders = initSys.holders ∧
     (runTranscription envCancelAfterLoad initSys).progressLog = [0]) ∧
    ((runTranscription envCancelDuringExec initSys).job.status = .canceled ∧
     (runTranscription envCancelDuringExec initSys).progressLog =
       [0, 1] ++ pollWrites envCancelDuringExec.durationProbe envCancelDuringExec.segEnds) :=
  ⟨c9_amended_checkpoints.1 envCancelBeforeLoad initSys rfl,
   c9_amended_checkpoints.2.1 envCancelAfterLoad initSys rfl (by decide) (by decide) rfl,
   c9_amended_checkpoints.2.2 envCancelDuringExec initSys rfl (by decide) (by decide) rfl rfl rfl⟩


/-- Case summary of `acquire_model`: it either fails busy (state
untouched, jobs active) or succeeds, stamping `_last_used` and leaving
`_idle_task` alone. -/
theorem acquireModel_spec (name : String) (now : ℚ) (m : Mgr) :
    ((acquireModel name now m).1 = m ∧ (acquireModel name now m).2 = .busy ∧
      0 < m.activeJobs) ∨
    ((acquireModel name now m).1.lastUsed = now ∧
      (acquireModel name now m).1.idleArmed = m.idleArmed ∧
      (acquireModel name now m).2 = .ok) := by
  unfold acquireModel
  split_ifs with h1 h2
  · exact Or.inl ⟨rfl, rfl, h2⟩
  · exact Or.inr ⟨rfl, rfl, rfl⟩
  · exact Or.inr ⟨rfl, rfl, rfl⟩
  · exact Or.inr ⟨rfl, rfl, rfl⟩

/-- An acquire strictly after the arming instant `a` establishes the
armed-guard invariant: on success it freshens `_last_used`; on a
ResourceBusy failure the state is untouched but jobs are active. -/
theorem armedGuard_after_acquire (a u : ℚ) (name : String) (s : SysState)
    (harm : s.mgr.idleArmed = some a) (hu : a < u) :
    armedGuard a (stepEv s (.acquire name u)) := by
  have hfirst : ∀ b, s.mgr.idleArmed = some b → a ≤ b := by
    intro b hb
    rw [harm] at hb
    injection hb with hb
    exact le_of_eq hb
  simp only [stepEv]
  rcases acquireModel_spec name u s.mgr with ⟨he, _, hact⟩ | ⟨hl, ha, _⟩
  · refine ⟨?_, ?_⟩
    · intro b hb2
      rw [he] at hb2
      exact hfirst b hb2
    · intro _
      refine Or.inr ?_
      rw [he]
      exact hact
  · refine ⟨?_, ?_⟩
    · intro b hb2
      rw [ha] at hb2
      exact hfirst b hb2
    · intro _
      refine Or.inl ?_
      rw [hl]
      exact hu

/-- Every event happening strictly after `a` preserves the armed guard. -/
theorem armedGuard_step (a : ℚ) (s : SysState) (e : MEvent)
    (hg : armedGuard a s) (ht : a < eventTime e) : armedGuard a (stepEv s e) := by
  obtain ⟨hg1, hg2⟩ := hg
  cases e with
  | acquire name u =>
    simp only [eventTime] at ht
    simp only [stepEv]
    rcases acquireModel_spec name u s.mgr with ⟨he, _, hact⟩ | ⟨hl, ha, _⟩
    · refine ⟨?_, ?_⟩
      · intro b hb2
        rw [he] at hb2
        exact hg1 b hb2
      · intro _
        refine Or.inr ?_
        rw [he]
        exact hact
    · refine ⟨?_, ?_⟩
      · intro b hb2
        rw [ha] at hb2
        exact hg1 b hb2
      · intro _
        refine Or.inl ?_
        rw [hl]
        exact ht
  | releaseHeld u =>
    simp only [eventTime] at ht
    simp only [stepEv]
    split_ifs with h1
    · refine ⟨?_, ?_⟩
      · intro b hb
        simp only [releaseModel] at hb
        injection hb with hb
        exact hb ▸ le_of_lt ht
      · intro hb
        simp only [releaseModel] at hb
        injection hb with hb
        exact absurd (hb ▸ ht) (lt_irrefl a)
    · exact ⟨hg1, hg2⟩
  | releaseOrphan u =>
    simp only [eventTime] at ht
    simp only [stepEv]
    refine ⟨?_, ?_⟩
    · intro b hb
      simp only [releaseModel] at hb
      injection hb with hb
      exact hb ▸ le_of_lt ht
    · intro hb
      simp only [releaseModel] at hb
      injection hb with hb
      exact absurd (hb ▸ ht) (lt_irrefl a)
  | idleFire n =>
    simp only [stepEv]
    cases harm : s.mgr.idleArmed with
    | none => exact ⟨hg1, hg2⟩
    | some b =>
      dsimp only
      split_ifs with h1 h2
      · exact ⟨(fun c hc => nomatch hc), (fun hc => nomatch hc)⟩
      · exact ⟨(fun c hc => nomatch hc), (fun hc => nomatch hc)⟩
      · exact ⟨hg1, hg2⟩

theorem armedGuard_foldl (a : ℚ) (evs : List MEvent) (s : SysState)
    (hg : armedGuard a s) (ht : ∀ e ∈ evs, a < eventTime e) :
    armedGuard a (evs.foldl stepEv s) := by
  induction evs generalizing s with
  | nil => exact hg
  | cons e es ih =>
    exact ih (stepEv s e) (armedGuard_step a s e hg (ht e (by simp)))
      (fun e' he' => ht e' (by simp [he']))

/-- Under the armed guard for `a`, the firing of a timer armed at or
before `a` cannot unload the model. -/
theorem fire_noop_of_armedGuard (a : ℚ) (s : SysState) (hg : armedGuard a s) :
    (stepEv s (.idleFire (a + idleTimeoutQ))).mgr.model = s.mgr.model := by
  obtain ⟨hg1, hg2⟩ := hg
  simp only [stepEv]
  cases harm : s.mgr.idleArmed with
  | none => rfl
  | some b =>
    dsimp only
    split_ifs with h1 h2
    · exfalso
      have hab : a ≤ b := hg1 b harm
      have hba : b ≤ a := by linarith
      have hbeq : b = a := le_antisymm hba hab
      obtain ⟨hzero, _, helap⟩ := h2
      rcases hg2 (hbeq ▸ harm) with hl | ha
      · linarith
      · omega
    · rfl
    · rfl

/-- C3 (amended): (i) for balanced states (recorded count = number of
holders), a firing of the idle task that actually unloads can only happen
when no job holds the model, the recorded count is zero, a timer is armed,
its full idle window has elapsed, and the slot was untouched
(`_last_used`) for a full idle window before the fire; (ii) `acquire_model`
does not cancel the armed timer, but an acquire strictly after the arming
instant guarantees that the firing of that timer unloads nothing,
whatever further events (all later than the arming) happen in between. -/
theorem c3_amended_idle_eviction_safety :
    (∀ (s : SysState) (now : ℚ),
      s.mgr.activeJobs = (s.holders : Int) →
      (stepEv s (.idleFire now)).mgr.model ≠ s.mgr.model →
      s.holders = 0 ∧ s.mgr.activeJobs = 0 ∧
      ∃ a, s.mgr.idleArmed = some a ∧ a + idleTimeoutQ ≤ now ∧
        idleTimeoutQ ≤ now - s.mgr.lastUsed) ∧
    (∀ (s : SysState) (a : ℚ) (name : String) (u : ℚ) (evs : List MEvent),
      s.mgr.idleArmed = some a → a < u → (∀ e ∈ evs, a < eventTime e) →
      (stepEv (evs.foldl stepEv (stepEv s (.acquire name u)))
          (.idleFire (a + idleTimeoutQ))).mgr.model =
        (evs.foldl stepEv (stepEv s (.acquire name u))).mgr.model) := by
  constructor
  · intro s now hbal hchange
    simp only [stepEv] at hchange
    cases harm : s.mgr.idleArmed with
    | none => rw [harm] at hchange; exact absurd rfl hchange
    | some a =>
      rw [harm] at hchange
      dsimp only at hchange
      split_ifs at hchange with h1 h2
      · obtain ⟨hzero, hsome, helap⟩ := h2
        refine ⟨?_, hzero, a, rfl, by linarith, by linarith⟩
        omega
      · exact absurd rfl hchange
      · exact absurd rfl hchange
  · intro s a name u evs harm hu ht
    exact fire_noop_of_armedGuard a _
      (armedGuard_foldl a evs _ (armedGuard_after_acquire a u name s harm hu) ht)

theorem c3_amended_idle_eviction_safety_witness :
    (sysFireWitness.holders = 0 ∧ sysFireWitness.mgr.activeJobs = 0 ∧
     ∃ a, sysFireWitness.mgr.idleArmed = some a ∧ a + idleTimeoutQ ≤ 300 ∧
       idleTimeoutQ ≤ 300 - sysFireWitness.mgr.lastUsed) ∧
    (stepEv (([] : List MEvent).foldl stepEv (stepEv sysAcquireWitness (.acquire "tiny" 11)))
        (.idleFire (10 + idleTimeoutQ))).mgr.model =
      (([] : List MEvent).foldl stepEv (stepEv sysAcquireWitness (.acquire "tiny" 11))).mgr.model :=
  ⟨c3_amended_idle_eviction_safety.1 sysFireWitness 300 (by decide) (by decide),
   c3_amended_idle_eviction_safety.2 sysAcquireWitness 10 "tiny" 11 [] rfl (by decide)
     (by simp)⟩

/-- The time-group matcher accepts a rendered `M[M]:SS.mmm` group and
recovers its numeric value. -/
theorem parseTimeG_mk (m ss ms : Nat) (r : List Nat)
    (hm : m ≤ 99) (hs : ss ≤ 99) (hms : ms ≤ 999) :
    parseTimeG (toD2 m ++ [58] ++ toD2 ss ++ [46] ++ toD3 ms ++ r) =
      some (m, ss, ms, r) := by
  have hd1 : isDigitB (48 + m / 10) = true := by simp [isDigitB]; omega
  have hd2 : isDigitB (48 + m % 10) = true := by simp [isDigitB]; omega
  have hd3 : isDigitB (48 + ss / 10) = true := by simp [isDigitB]; omega
  have hd4 : isDigitB (48 + ss % 10) = true := by simp [isDigitB]; omega
  have hd5 : isDigitB (48 + ms / 100) = true := by simp [isDigitB]; omega
  have hd6 : isDigitB (48 + ms / 10 % 10) = true := by simp [isDigitB]; omega
  have hd7 : isDigitB (48 + ms % 10) = true := by simp [isDigitB]; omega
  simp only [toD2, toD3, List.cons_append, List.nil_append]
  simp only [parseTimeG, parseTimeTail, hd1, hd2, hd3, hd4, hd5, hd6, hd7,
    if_true, and_self, and_true, true_and, Bool.true_eq, Option.some.injEq,
    Prod.mk.injEq, dval]
  omega


/-- The fallback pattern matches a rendered
`[MM:SS.mmm --> MM:SS.mmm]` line, capturing the end time. -/
theorem progressMatch_mk (m1 s1 ms1 m2 s2 ms2 : Nat) (rest : List Nat)
    (h1 : m1 ≤ 99) (h2 : s1 ≤ 99) (h3 : ms1 ≤ 999)
    (h4 : m2 ≤ 99) (h5 : s2 ≤ 99) (h6 : ms2 ≤ 999) :
    progressMatch (mkProgressLine m1 s1 ms1 m2 s2 ms2 rest) = some (m2, s2, ms2) := by
  have hsp : pyIsSpace 32 = true := rfl
  have hns : pyIsSpace 45 = false := rfl
  have hnd : pyIsSpace (48 + m2 / 10) = false := by simp [pyIsSpace]; omega
  have e1 : parseTimeG (toD2 m1 ++ [58] ++ toD2 s1 ++ [46] ++ toD3 ms1 ++
      ([32, 45, 45, 62, 32] ++ (toD2 m2 ++ [58] ++ toD2 s2 ++ [46] ++ toD3 ms2 ++
        ([93] ++ rest)))) =
      some (m1, s1, ms1, [32, 45, 45, 62, 32] ++ (toD2 m2 ++ [58] ++ toD2 s2 ++ [46] ++
        toD3 ms2 ++ ([93] ++ rest))) := parseTimeG_mk m1 s1 ms1 _ h1 h2 h3
  have e2 : parseTimeG (toD2 m2 ++ [58] ++ toD2 s2 ++ [46] ++ toD3 ms2 ++ ([93] ++ rest)) =
      some (m2, s2, ms2, [93] ++ rest) := parseTimeG_mk m2 s2 ms2 _ h4 h5 h6
  unfold mkProgressLine
  simp only [toD2, toD3, List.cons_append, List.nil_append, List.append_assoc] at e1 e2 ⊢
  simp only [progressMatch, e1, e2, List.dropWhile_cons, hsp, hns, hnd,
    if_true, if_false, Bool.false_eq_true, Bool.true_eq, reduceIte]


/-- C7 (amended): for every fallback line in the `MM:SS.mmm` form (the
`HH:MM:SS.mmm` form is never matched by the pattern), with a known
positive duration the stored value is `min(end/duration*100, 100)` rounded
to two decimals, stored exactly when the unrounded value strictly exceeds
the current progress; an unknown (`None`) or non-positive duration yields
no update on any line (and, the update being total, no divide-by-zero
failure). -/
theorem c7_amended_fallback_update :
    (∀ (m1 s1 ms1 m2 s2 ms2 : Nat) (rest : List Nat) (d cur : ℚ),
      m1 ≤ 99 → s1 ≤ 99 → ms1 ≤ 999 → m2 ≤ 99 → s2 ≤ 99 → ms2 ≤ 999 → 0 < d →
      fallbackUpdate (mkProgressLine m1 s1 ms1 m2 s2 ms2 rest) (some d) cur =
        (if cur < min (timeValQ m2 s2 ms2 / d * 100) 100 then
          some (pyRound2 (min (timeValQ m2 s2 ms2 / d * 100) 100)) else none)) ∧
    (∀ (line : List Nat) (cur : ℚ), fallbackUpdate line none cur = none) ∧
    (∀ (line : List Nat) (d cur : ℚ), d ≤ 0 → fallbackUpdate line (some d) cur = none) := by
  refine ⟨?_, ?_, ?_⟩
  · intro m1 s1 ms1 m2 s2 ms2 rest d cur h1 h2 h3 h4 h5 h6 hd
    unfold fallbackUpdate
    rw [progressMatch_mk m1 s1 ms1 m2 s2 ms2 rest h1 h2 h3 h4 h5 h6]
    simp only [if_pos hd]
  · intro line cur
    unfold fallbackUpdate
    cases progressMatch line with
    | none => rfl
    | some x => rcases x with ⟨m, ss, ms⟩; rfl
  · intro line d cur hd
    unfold fallbackUpdate
    cases progressMatch line with
    | none => rfl
    | some x =>
      rcases x with ⟨m, ss, ms⟩
      simp only [if_neg (not_lt.mpr hd)]

theorem c7_amended_fallback_update_witness :
    (fallbackUpdate (mkProgressLine 0 0 0 1 40 0 []) (some 200) 0 =
      (if (0:ℚ) < min (timeValQ 1 40 0 / 200 * 100) 100 then
        some (pyRound2 (min (timeValQ 1 40 0 / 200 * 100) 100)) else none)) ∧
    fallbackUpdate hmsLineC7 none 0 = none ∧
    fallbackUpdate hmsLineC7 (some 0) 0 = none :=
  ⟨c7_amended_fallback_update.1 0 0 0 1 40 0 [] 200 0 (by norm_num) (by norm_num) (by norm_num)
      (by norm_num) (by norm_num) (by norm_num) (by norm_num),
   c7_amended_fallback_update.2.1 hmsLineC7 0,
   c7_amended_fallback_update.2.2 hmsLineC7 0 0 le_rfl⟩



/-! ### splitlines scan: structural lemmas -/

theorem slStep_factor (L : List (List Nat)) (a : List Nat) (f : Bool) (c : Nat) :
    slStep ⟨L, a, f⟩ c =
      ⟨L ++ (slStep ⟨[], a, f⟩ c).lines, (slStep ⟨[], a, f⟩ c).acc,
       (slStep ⟨[], a, f⟩ c).afterCR⟩ := by
  simp only [slStep]
  split_ifs <;> simp

theorem foldl_slStep_factor (r : List Nat) (L : List (List Nat)) (a : List Nat) (f : Bool) :
    r.foldl slStep ⟨L, a, f⟩ =
      ⟨L ++ (r.foldl slStep ⟨[], a, f⟩).lines, (r.foldl slStep ⟨[], a, f⟩).acc,
       (r.foldl slStep ⟨[], a, f⟩).afterCR⟩ := by
  induction r generalizing L a f with
  | nil => simp
  | cons c r ih =>
    simp only [List.foldl_cons]
    rw [slStep_factor]
    rcases hst : slStep ⟨[], a, f⟩ c with ⟨B, a2, f2⟩
    dsimp only
    rw [ih (L ++ B) a2 f2, ih B a2 f2]
    simp [List.append_assoc]

theorem foldl_slStep_noBreak (l : List Nat) (L : List (List Nat)) (a : List Nat)
    (hl : noBreak l = true) :
    l.foldl slStep ⟨L, a, false⟩ = ⟨L, l.reverse ++ a, false⟩ := by
  induction l generalizing a with
  | nil => simp
  | cons c r ih =>
    simp only [noBreak, List.all_cons, Bool.and_eq_true] at hl
    obtain ⟨hc, hr⟩ := hl
    have hcb : isBreakChar c = false := by simpa using hc
    have h13 : ¬ c = 13 := by
      intro h
      subst h
      simp [isBreakChar] at hcb
    have hstep : slStep ⟨L, a, false⟩ c = ⟨L, c :: a, false⟩ := by
      unfold slStep
      rw [if_neg (by simp), if_neg h13, if_neg (by simp [hcb])]
    simp only [List.foldl_cons]
    rw [hstep, ih _ hr]
    simp

theorem slStep_flagTrue (L : List (List Nat)) (a : List Nat) (c : Nat) (hc : c ≠ 10) :
    slStep ⟨L, a, true⟩ c = slStep ⟨L, a, false⟩ c := by
  have h1 : ¬(true = true ∧ c = 10) := fun h => hc h.2
  have h2 : ¬(false = true ∧ c = 10) := by simp
  unfold slStep
  dsimp only
  rw [if_neg h1, if_neg h2]

theorem slFinish_concat (L : List (List Nat)) (st : SLSt) :
    slFinish ⟨L ++ st.lines, st.acc, st.afterCR⟩ = L ++ slFinish st := by
  unfold slFinish
  split_ifs <;> simp

/-- Running the scan from an already-produced prefix of lines just
prepends that prefix. -/
theorem pySplitLines_from (L : List (List Nat)) (r : List Nat) :
    slFinish (r.foldl slStep ⟨L, [], false⟩) = L ++ pySplitLines r := by
  rw [foldl_slStep_factor]
  exact slFinish_concat L _

/-- Same, for a scan resumed right after a carriage return, provided the
next character is not the newline that would be absorbed. -/
theorem pySplitLines_from_flagTrue (L : List (List Nat)) (r : List Nat)
    (hr : r.head? ≠ some 10) :
    slFinish (r.foldl slStep ⟨L, [], true⟩) = L ++ pySplitLines r := by
  cases r with
  | nil => simp [slFinish, pySplitLines, slStep]
  | cons c r2 =>
    simp only [List.foldl_cons]
    rw [slStep_flagTrue L [] c (fun h => hr (by simp [h]))]
    have h2 := pySplitLines_from L (c :: r2)
    simpa only [List.foldl_cons] using h2

/-! ### splitlines: unfolding along the first break -/

theorem pySplit_noBreak (l : List Nat) (hl : noBreak l = true) (hne : l ≠ []) :
    pySplitLines l = [l] := by
  unfold pySplitLines
  rw [foldl_slStep_noBreak l [] [] hl]
  unfold slFinish
  rw [if_neg (by simp [hne])]
  simp

theorem pySplit_break (l : List Nat) (t : Nat) (r : List Nat)
    (hl : noBreak l = true) (ht : isBreakChar t = true)
    (hcr : ¬(t = 13 ∧ r.head? = some 10)) :
    pySplitLines (l ++ t :: r) = l :: pySplitLines r := by
  have key : pySplitLines (l ++ t :: r) =
      slFinish ((t :: r).foldl slStep ⟨[], l.reverse ++ [], false⟩) := by
    unfold pySplitLines
    rw [List.foldl_append, foldl_slStep_noBreak l [] [] hl]
  rw [key]
  simp only [List.foldl_cons]
  by_cases h13 : t = 13
  · subst h13
    have hr10 : r.head? ≠ some 10 := fun h => hcr ⟨rfl, h⟩
    have hstep : slStep ⟨[], l.reverse ++ [], false⟩ 13 =
        ⟨[(l.reverse ++ []).reverse], [], true⟩ := by
      unfold slStep
      rw [if_neg (by simp), if_pos rfl]
      simp
    rw [hstep, pySplitLines_from_flagTrue _ r hr10]
    simp
  · have hstep : slStep ⟨[], l.reverse ++ [], false⟩ t =
        ⟨[(l.reverse ++ []).reverse], [], false⟩ := by
      unfold slStep
      rw [if_neg (by simp), if_neg h13, if_pos ht]
      simp
    rw [hstep, pySplitLines_from _ r]
    simp

theorem pySplit_crlf (l r : List Nat) (hl : noBreak l = true) :
    pySplitLines (l ++ 13 :: 10 :: r) = l :: pySplitLines r := by
  have key : pySplitLines (l ++ 13 :: 10 :: r) =
      slFinish ((13 :: 10 :: r).foldl slStep ⟨[], l.reverse ++ [], false⟩) := by
    unfold pySplitLines
    rw [List.foldl_append, foldl_slStep_noBreak l [] [] hl]
  rw [key]
  simp only [List.foldl_cons]
  have h1 : slStep ⟨[], l.reverse ++ [], false⟩ 13 =
      ⟨[(l.reverse ++ []).reverse], [], true⟩ := by
    unfold slStep
    rw [if_neg (by simp), if_pos rfl]
    simp
  have h2 : slStep ⟨[(l.reverse ++ []).reverse], [], true⟩ 10 =
      ⟨[(l.reverse ++ []).reverse], [], false⟩ := by
    unfold slStep
    rw [if_pos ⟨rfl, rfl⟩]
  rw [h1, h2, pySplitLines_from _ r]
  simp


/-! ### Splitting a text at its last newline/carriage return -/

theorem takeWhile_append_eval (p : Nat → Bool) (A B : List Nat) :
    (A ++ B).takeWhile p = if A.all p then A ++ B.takeWhile p else A.takeWhile p := by
  induction A with
  | nil => simp
  | cons a A ih =>
    simp only [List.cons_append, List.takeWhile_cons, List.all_cons]
    cases hp : p a with
    | true =>
      simp only [Bool.true_and, ih]
      split_ifs <;> simp
    | false => simp

theorem dropWhile_append_eval (p : Nat → Bool) (A B : List Nat) :
    (A ++ B).dropWhile p = if A.all p then B.dropWhile p else A.dropWhile p ++ B := by
  induction A with
  | nil => simp
  | cons a A ih =>
    simp only [List.cons_append, List.dropWhile_cons, List.all_cons]
    cases hp : p a with
    | true => simp [ih]
    | false => simp

theorem dropWhile_head_not (p : Nat → Bool) :
    ∀ (l : List Nat) (x : Nat) (xs : List Nat), l.dropWhile p = x :: xs → p x = false := by
  intro l
  induction l with
  | nil => intro x xs h; simp at h
  | cons a l ih =>
    intro x xs h
    rw [List.dropWhile_cons] at h
    split_ifs at h with hp
    · exact ih x xs h
    · injection h with h1 _
      subst h1
      simpa using hp

theorem getLast?_eq_head?_reverse (t : List Nat) : t.getLast? = t.reverse.head? := by
  have := List.getLast?_reverse t.reverse
  simpa using this.symm

theorem beforeLastNL_append_afterLastNL (t : List Nat) :
    beforeLastNL t ++ afterLastNL t = t := by
  unfold beforeLastNL afterLastNL
  rw [← List.reverse_append, List.takeWhile_append_dropWhile, List.reverse_reverse]

theorem afterLastNL_noNL (t : List Nat) : ∀ x ∈ afterLastNL t, notNL x = true := by
  intro x hx
  unfold afterLastNL at hx
  rw [List.mem_reverse] at hx
  exact List.mem_takeWhile_imp hx

theorem afterLastNL_mem (t : List Nat) : ∀ x ∈ afterLastNL t, x ∈ t := by
  intro x hx
  unfold afterLastNL at hx
  rw [List.mem_reverse] at hx
  have h2 : x ∈ t.reverse := List.Sublist.subset (List.takeWhile_sublist _) hx
  exact List.mem_reverse.mp h2

theorem endsBreak_beforeLastNL (t : List Nat) : endsBreak (beforeLastNL t) := by
  unfold endsBreak beforeLastNL
  cases hd : t.reverse.dropWhile notNL with
  | nil => left; simp
  | cons x xs =>
    right
    refine ⟨x, ?_, ?_⟩
    · rw [List.getLast?_reverse]
      rfl
    · have hx : notNL x = false := dropWhile_head_not notNL t.reverse x xs hd
      simp only [notNL, decide_eq_false_iff_not, not_and_or, not_not] at hx
      rcases hx with rfl | rfl <;> rfl

theorem endsNL_beforeLastNL_or_nil (t : List Nat) :
    beforeLastNL t = [] ∨ endsNL (beforeLastNL t) = true := by
  unfold beforeLastNL
  cases hd : t.reverse.dropWhile notNL with
  | nil => left; simp
  | cons x xs =>
    right
    have hx : notNL x = false := dropWhile_head_not notNL t.reverse x xs hd
    unfold endsNL
    rw [List.getLast?_reverse]
    simp [hx]

theorem afterLastNL_of_endsNL (t : List Nat) (h : endsNL t = true) :
    afterLastNL t = [] := by
  unfold afterLastNL
  cases hr : t.reverse with
  | nil => simp
  | cons x xs =>
    have hx : t.getLast? = some x := by rw [getLast?_eq_head?_reverse, hr]; rfl
    unfold endsNL at h
    rw [hx] at h
    simp only [Bool.not_eq_true'] at h
    rw [List.takeWhile_cons, if_neg (by simp [h])]
    rfl

theorem beforeLastNL_of_endsNL (t : List Nat) (h : endsNL t = true) :
    beforeLastNL t = t := by
  have := beforeLastNL_append_afterLastNL t
  rw [afterLastNL_of_endsNL t h] at this
  simpa using this

theorem afterLastNL_ne_nil (t : List Nat) (hne : t ≠ []) (h : endsNL t = false) :
    afterLastNL t ≠ [] := by
  unfold afterLastNL
  cases hr : t.reverse with
  | nil => simp at hr; exact absurd hr hne
  | cons x xs =>
    have hx : t.getLast? = some x := by rw [getLast?_eq_head?_reverse, hr]; rfl
    unfold endsNL at h
    rw [hx] at h
    have h2 : notNL x = true := by simpa using h
    rw [List.takeWhile_cons, if_pos h2]
    simp

theorem afterLastNL_append (P Y : List Nat) (hP : P = [] ∨ endsNL P = true) :
    afterLastNL (P ++ Y) = afterLastNL Y := by
  rcases hP with rfl | hP
  · simp
  · have hPne : P ≠ [] := by
      intro h
      subst h
      simp [endsNL] at hP
    unfold afterLastNL
    rw [List.reverse_append, takeWhile_append_eval]
    split_ifs with hall
    · have h1 : P.reverse.takeWhile notNL = [] := by
        cases hr : P.reverse with
        | nil => rfl
        | cons x xs =>
          have hx : P.getLast? = some x := by rw [getLast?_eq_head?_reverse, hr]; rfl
          unfold endsNL at hP
          rw [hx] at hP
          simp only [Bool.not_eq_true'] at hP
          rw [List.takeWhile_cons, if_neg (by simp [hP])]
      have h2 : Y.reverse.takeWhile notNL = Y.reverse :=
        List.takeWhile_eq_self_iff.mpr (by simpa [List.all_eq_true] using hall)
      rw [h1, h2]
      simp
    · rfl

theorem beforeLastNL_append (P Y : List Nat) (hP : P = [] ∨ endsNL P = true) :
    beforeLastNL (P ++ Y) = P ++ beforeLastNL Y := by
  have h1 := beforeLastNL_append_afterLastNL (P ++ Y)
  rw [afterLastNL_append P Y hP] at h1
  have h2 := beforeLastNL_append_afterLastNL Y
  have h3 : beforeLastNL (P ++ Y) ++ afterLastNL Y = (P ++ beforeLastNL Y) ++ afterLastNL Y := by
    rw [h1, List.append_assoc, h2]
  exact List.append_cancel_right h3


/-! ### Concatenation lemmas for splitlines -/

theorem pySplitLines_nil : pySplitLines [] = [] := rfl

theorem canonicalLines_nil : canonicalLines [] = [] := rfl

theorem stripNonempty_cons (a : List Nat) (L : List (List Nat)) :
    stripNonempty (a :: L) =
      (if pyStrip a = [] then [] else [pyStrip a]) ++ stripNonempty L := by
  unfold stripNonempty
  simp only [List.filterMap_cons]
  split_ifs with h <;> simp [h]

theorem stripNonempty_append (A B : List (List Nat)) :
    stripNonempty (A ++ B) = stripNonempty A ++ stripNonempty B := by
  unfold stripNonempty
  rw [List.filterMap_append]

theorem noBreak_head_ne_ten (q : List Nat) (hq : noBreak q = true) :
    q.head? ≠ some 10 := by
  intro h
  cases q with
  | nil => simp at h
  | cons a q2 =>
    injection h with h
    subst h
    have hb : isBreakChar 10 = true := rfl
    simp [noBreak, hb] at hq

theorem endsBreak_tail (a : Nat) (P3 : List Nat) (h : endsBreak (a :: P3)) :
    endsBreak P3 := by
  cases P3 with
  | nil => left; rfl
  | cons b P4 =>
    rcases h with h | ⟨c, hc, hb⟩
    · simp at h
    · right
      refine ⟨c, ?_, hb⟩
      rw [← hc]
      exact (List.getLast?_append_of_ne_nil [a] (by simp)).symm

/-- Decomposition of a break-terminated text along its first break. -/
theorem exists_first_break_decomp (P : List Nat) (hP : endsBreak P) (hne : P ≠ []) :
    ∃ (l : List Nat) (t : Nat) (P2 : List Nat),
      P = l ++ t :: P2 ∧ noBreak l = true ∧ isBreakChar t = true ∧ endsBreak P2 := by
  obtain ⟨c, hcl, hcb⟩ : ∃ c, P.getLast? = some c ∧ isBreakChar c = true := by
    rcases hP with rfl | h
    · exact absurd rfl hne
    · exact h
  have hsplit := List.takeWhile_append_dropWhile (p := fun x => !isBreakChar x) (l := P)
  cases hd : P.dropWhile (fun x => !isBreakChar x) with
  | nil =>
    exfalso
    have hall : ∀ x ∈ P, (fun x => !isBreakChar x) x = true := by
      rw [← List.dropWhile_eq_nil_iff]
      exact hd
    have hcm : c ∈ P := List.mem_of_mem_getLast? (by simp [hcl])
    have := hall c hcm
    simp [hcb] at this
  | cons t P2 =>
    refine ⟨P.takeWhile (fun x => !isBreakChar x), t, P2, ?_, ?_, ?_, ?_⟩
    · rw [hd] at hsplit
      exact hsplit.symm
    · exact List.all_eq_true.mpr
        (fun x hx => List.mem_takeWhile_imp (p := fun x => !isBreakChar x) hx)
    · have := dropWhile_head_not (fun x => !isBreakChar x) P t P2 hd
      simpa using this
    · cases hP2 : P2 with
      | nil => left; rfl
      | cons b P4 =>
        subst hP2
        right
        refine ⟨c, ?_, hcb⟩
        have hne2 : (t :: b :: P4) ≠ [] := by simp
        rw [← hcl, ← hsplit, hd, List.getLast?_append_of_ne_nil _ hne2,
          List.getLast?_cons_cons]

set_option maxHeartbeats 1000000 in
/-- Appending a break-free trailing fragment `q` to a break-terminated
text adds exactly one further raw line. -/
theorem pySplit_append_trailing :
    ∀ (n : Nat) (P q : List Nat), P.length ≤ n → endsBreak P → noBreak q = true →
      pySplitLines (P ++ q) = pySplitLines P ++ pySplitLines q := by
  intro n
  induction n with
  | zero =>
    intro P q hlen hP hq
    have hnil : P = [] := by
      cases P with
      | nil => rfl
      | cons a l => simp at hlen
    subst hnil
    simp [pySplitLines_nil]
  | succ n ih =>
    intro P q hlen hP hq
    by_cases hne : P = []
    · subst hne; simp [pySplitLines_nil]
    · obtain ⟨l, t, P2, hdec, hl, ht, hP2⟩ := exists_first_break_decomp P hP hne
      subst hdec
      simp only [List.length_append, List.length_cons] at hlen
      have hq10 : q.head? ≠ some 10 := noBreak_head_ne_ten q hq
      by_cases h13 : t = 13 ∧ P2.head? = some 10
      · obtain ⟨rfl, hh⟩ := h13
        obtain ⟨P3, rfl⟩ : ∃ P3, P2 = 10 :: P3 := by
          cases P2 with
          | nil => simp at hh
          | cons a P3 =>
            injection hh with hh
            exact ⟨P3, by rw [hh]⟩
        have hP3 : endsBreak P3 := endsBreak_tail 10 P3 hP2
        simp only [List.length_cons] at hlen
        have e1 : (l ++ 13 :: 10 :: P3) ++ q = l ++ 13 :: 10 :: (P3 ++ q) := by simp
        rw [e1, pySplit_crlf l (P3 ++ q) hl, pySplit_crlf l P3 hl]
        rw [ih P3 q (by omega) hP3 hq]
        simp
      · have hcond : ¬(t = 13 ∧ (P2 ++ q).head? = some 10) := by
          rintro ⟨h13t, hh⟩
          cases P2 with
          | nil => exact hq10 (by simpa using hh)
          | cons a P3 => exact h13 ⟨h13t, by simpa using hh⟩
        have e1 : (l ++ t :: P2) ++ q = l ++ t :: (P2 ++ q) := by simp
        rw [e1, pySplit_break l t (P2 ++ q) hl ht hcond]
        rw [pySplit_break l t P2 hl ht h13]
        rw [ih P2 q (by omega) hP2 hq]
        simp

set_option maxHeartbeats 1000000 in
/-- Appending anything to a break-terminated text concatenates the
stripped nonempty lines (the only subtle case, a `\r\n` pair split at
the junction, only merges an empty line, which the filter drops). -/
theorem canonical_append_of_endsBreak :
    ∀ (n : Nat) (P X : List Nat), P.length ≤ n → endsBreak P →
      canonicalLines (P ++ X) = canonicalLines P ++ canonicalLines X := by
  intro n
  induction n with
  | zero =>
    intro P X hlen hP
    have hnil : P = [] := by
      cases P with
      | nil => rfl
      | cons a l => simp at hlen
    subst hnil
    simp [canonicalLines_nil]
  | succ n ih =>
    intro P X hlen hP
    by_cases hne : P = []
    · subst hne; simp [canonicalLines_nil]
    · obtain ⟨l, t, P2, hdec, hl, ht, hP2⟩ := exists_first_break_decomp P hP hne
      subst hdec
      simp only [List.length_append, List.length_cons] at hlen
      by_cases h13 : t = 13 ∧ P2.head? = some 10
      · obtain ⟨rfl, hh⟩ := h13
        obtain ⟨P3, rfl⟩ : ∃ P3, P2 = 10 :: P3 := by
          cases P2 with
          | nil => simp at hh
          | cons a P3 =>
            injection hh with hh
            exact ⟨P3, by rw [hh]⟩
        have hP3 : endsBreak P3 := endsBreak_tail 10 P3 hP2
        simp only [List.length_cons] at hlen
        have e1 : (l ++ 13 :: 10 :: P3) ++ X = l ++ 13 :: 10 :: (P3 ++ X) := by simp
        unfold canonicalLines
        rw [e1, pySplit_crlf l (P3 ++ X) hl, pySplit_crlf l P3 hl]
        rw [stripNonempty_cons, stripNonempty_cons]
        have := ih P3 X (by omega) hP3
        unfold canonicalLines at this
        rw [this]
        simp
      · by_cases hcross : P2 = [] ∧ t = 13 ∧ X.head? = some 10
        · obtain ⟨rfl, rfl, hh⟩ := hcross
          obtain ⟨X2, rfl⟩ : ∃ X2, X = 10 :: X2 := by
            cases X with
            | nil => simp at hh
            | cons a X2 =>
              injection hh with hh
              exact ⟨X2, by rw [hh]⟩
          have e1 : (l ++ [13]) ++ 10 :: X2 = l ++ 13 :: 10 :: X2 := by simp
          unfold canonicalLines
          rw [e1, pySplit_crlf l X2 hl]
          rw [pySplit_break l 13 [] hl rfl (by simp)]
          have e2 : pySplitLines (10 :: X2) = [] :: pySplitLines X2 := by
            have := pySplit_break [] 10 X2 rfl rfl (by simp)
            simpa using this
          rw [e2]
          rw [stripNonempty_cons, stripNonempty_cons, stripNonempty_cons]
          simp [pyStrip, pySplitLines_nil, stripNonempty]
        · have hcond : ¬(t = 13 ∧ (P2 ++ X).head? = some 10) := by
            rintro ⟨h13t, hh⟩
            cases P2 with
            | nil => exact hcross ⟨rfl, h13t, by simpa using hh⟩
            | cons a P3 => exact h13 ⟨h13t, by simpa using hh⟩
          have e1 : (l ++ t :: P2) ++ X = l ++ t :: (P2 ++ X) := by simp
          unfold canonicalLines
          rw [e1, pySplit_break l t (P2 ++ X) hl ht hcond]
          rw [pySplit_break l t P2 hl ht h13]
          rw [stripNonempty_cons, stripNonempty_cons]
          have := ih P2 X (by omega) hP2
          unfold canonicalLines at this
          rw [this]
          simp


/-! ### One read-loop iteration, characterized -/

/-- One iteration of the read loop on decoded text: the complete stripped
nonempty lines of everything up to the last newline are yielded, and the
trailing newline-free fragment becomes the new partial-line buffer. -/
theorem stepChunkStr_spec (ys : List (List Nat)) (buf c : List Nat)
    (hbuf : ∀ x ∈ buf, notNL x = true)
    (hnx : ∀ x ∈ buf ++ c, isExoticBreak x = false) :
    stepChunkStr (ys, buf) c =
      (ys ++ canonicalLines (beforeLastNL (buf ++ c)), afterLastNL (buf ++ c)) := by
  unfold stepChunkStr
  dsimp only
  by_cases ht0 : buf ++ c = []
  · rw [if_pos ht0, ht0]
    simp [afterLastNL, beforeLastNL, canonicalLines_nil]
  · rw [if_neg ht0]
    by_cases hend : endsNL (buf ++ c) = true
    · rw [if_pos hend]
      rw [afterLastNL_of_endsNL _ hend, beforeLastNL_of_endsNL _ hend]
      rfl
    · rw [if_neg hend]
      have hq : afterLastNL (buf ++ c) ≠ [] :=
        afterLastNL_ne_nil (buf ++ c) ht0 (by simpa using hend)
      have hqNB : noBreak (afterLastNL (buf ++ c)) = true := by
        rw [noBreak, List.all_eq_true]
        intro x hx
        have h1 := afterLastNL_noNL (buf ++ c) x hx
        have h2 := hnx x (afterLastNL_mem (buf ++ c) x hx)
        simp only [isExoticBreak, h1, Bool.and_true, Bool.and_eq_false_iff] at h2
        simp [h2]
      have hsplit : pySplitLines (buf ++ c) =
          pySplitLines (beforeLastNL (buf ++ c)) ++ [afterLastNL (buf ++ c)] := by
        conv_lhs => rw [← beforeLastNL_append_afterLastNL (buf ++ c)]
        rw [pySplit_append_trailing (beforeLastNL (buf ++ c)).length
          (beforeLastNL (buf ++ c)) (afterLastNL (buf ++ c)) le_rfl
          (endsBreak_beforeLastNL (buf ++ c)) hqNB]
        rw [pySplit_noBreak (afterLastNL (buf ++ c)) hqNB hq]
      rw [hsplit, List.dropLast_concat]
      simp [canonicalLines]


/-! ### UTF-8: decoding is a left inverse of encoding on scalar values -/

theorem utf8_decode_one (n : Nat) (rest : List Nat) (hv : isScalar n = true) :
    utf8DecodeIgnore (utf8EncodeChar n ++ rest) = n :: utf8DecodeIgnore rest := by
  have hv2 : n < 1114112 ∧ ¬(55296 ≤ n ∧ n < 57344) := by
    have hvv := hv
    unfold isScalar at hvv
    exact of_decide_eq_true hvv
  unfold utf8EncodeChar
  split_ifs with h1 h2 h3
  · simp only [List.cons_append, List.nil_append]
    conv_lhs => unfold utf8DecodeIgnore
    rw [if_pos h1]
  · simp only [List.cons_append, List.nil_append]
    have hc1 : contByte (128 + n % 64) = true := by
      simp only [contByte, decide_eq_true_eq]
      omega
    conv_lhs => unfold utf8DecodeIgnore
    rw [if_neg (by omega), if_pos (by omega : 194 ≤ 192 + n / 64 ∧ 192 + n / 64 ≤ 223)]
    dsimp only
    rw [if_pos hc1]
    have hval : (192 + n / 64 - 192) * 64 + (128 + n % 64 - 128) = n := by omega
    rw [hval]
  · simp only [List.cons_append, List.nil_append]
    have hc1 : cont3a (224 + n / 4096) (128 + n / 64 % 64) = true := by
      unfold cont3a
      split_ifs with hE hD
      · simp only [decide_eq_true_eq]
        omega
      · simp only [decide_eq_true_eq]
        omega
      · simp only [contByte, decide_eq_true_eq]
        omega
    have hc2 : contByte (128 + n % 64) = true := by
      simp only [contByte, decide_eq_true_eq]
      omega
    conv_lhs => unfold utf8DecodeIgnore
    rw [if_neg (by omega), if_neg (by omega),
      if_pos (by omega : 224 ≤ 224 + n / 4096 ∧ 224 + n / 4096 ≤ 239)]
    dsimp only
    rw [if_pos hc1, if_pos hc2]
    have hval : (224 + n / 4096 - 224) * 4096 + (128 + n / 64 % 64 - 128) * 64 +
        (128 + n % 64 - 128) = n := by omega
    rw [hval]
  · simp only [List.cons_append, List.nil_append]
    have hc1 : cont4a (240 + n / 262144) (128 + n / 4096 % 64) = true := by
      unfold cont4a
      split_ifs with hE hD
      · simp only [decide_eq_true_eq]
        omega
      · simp only [decide_eq_true_eq]
        omega
      · simp only [contByte, decide_eq_true_eq]
        omega
    have hc2 : contByte (128 + n / 64 % 64) = true := by
      simp only [contByte, decide_eq_true_eq]
      omega
    have hc3 : contByte (128 + n % 64) = true := by
      simp only [contByte, decide_eq_true_eq]
      omega
    conv_lhs => unfold utf8DecodeIgnore
    rw [if_neg (by omega), if_neg (by omega), if_neg (by omega),
      if_pos (by omega : 240 ≤ 240 + n / 262144 ∧ 240 + n / 262144 ≤ 244)]
    dsimp only
    rw [if_pos hc1, if_pos hc2, if_pos hc3]
    have hval : (240 + n / 262144 - 240) * 262144 + (128 + n / 4096 % 64 - 128) * 4096 +
        (128 + n / 64 % 64 - 128) * 64 + (128 + n % 64 - 128) = n := by omega
    rw [hval]

theorem utf8Encode_cons (c : Nat) (l : List Nat) :
    utf8Encode (c :: l) = utf8EncodeChar c ++ utf8Encode l := by
  conv_lhs => unfold utf8Encode

theorem utf8Encode_append (a b : List Nat) :
    utf8Encode (a ++ b) = utf8Encode a ++ utf8Encode b := by
  induction a with
  | nil => rfl
  | cons c a ih =>
    simp only [List.cons_append, utf8Encode_cons, ih, List.append_assoc]

theorem utf8_roundtrip (s : List Nat) (hv : s.all isScalar = true) :
    utf8DecodeIgnore (utf8Encode s) = s := by
  induction s with
  | nil => rfl
  | cons c s ih =>
    simp only [List.all_cons, Bool.and_eq_true] at hv
    rw [utf8Encode_cons, utf8_decode_one c (utf8Encode s) hv.1, ih hv.2]


/-- C4 (amended): for a byte stream that is valid UTF-8, split into two
read chunks at a character boundary, with the text using only `\n`, `\r`
or `\r\n` as line boundaries (no exotic Unicode line breaks), the stream
reader yields the same lines as for the unsplit stream: the trailing
partial line of the first chunk is buffered and re-joined with the
second chunk. -/
theorem c4_amended_boundary_split_preserved (s1 s2 : List Nat)
    (hv : (s1 ++ s2).all isScalar = true)
    (hx : (s1 ++ s2).all (fun x => !isExoticBreak x) = true) :
    readStreamLines [utf8Encode s1, utf8Encode s2] =
      readStreamLines [utf8Encode (s1 ++ s2)] := by
  have hv12 : s1.all isScalar = true ∧ s2.all isScalar = true := by
    rw [List.all_append, Bool.and_eq_true] at hv
    exact hv
  have hxE : ∀ x ∈ s1 ++ s2, isExoticBreak x = false := by
    intro x hxm
    have h := List.all_eq_true.mp hx x hxm
    simpa using h
  unfold readStreamLines
  simp only [List.foldl_cons, List.foldl_nil]
  unfold stepChunkBytes
  rw [utf8_roundtrip s1 hv12.1, utf8_roundtrip s2 hv12.2, utf8_roundtrip (s1 ++ s2) hv]
  have h1 : stepChunkStr ([], []) s1 =
      (canonicalLines (beforeLastNL s1), afterLastNL s1) :=
    stepChunkStr_spec [] [] s1 (fun x hxm => absurd hxm (List.not_mem_nil x))
      (fun x hxm => hxE x (List.mem_append_left s2 hxm))
  have h2 : stepChunkStr (canonicalLines (beforeLastNL s1), afterLastNL s1) s2 =
      (canonicalLines (beforeLastNL s1) ++
         canonicalLines (beforeLastNL (afterLastNL s1 ++ s2)),
       afterLastNL (afterLastNL s1 ++ s2)) :=
    stepChunkStr_spec (canonicalLines (beforeLastNL s1)) (afterLastNL s1) s2
      (afterLastNL_noNL s1)
      (by
        intro x hxm
        rcases List.mem_append.mp hxm with h | h
        · exact hxE x (List.mem_append_left s2 (afterLastNL_mem s1 x h))
        · exact hxE x (List.mem_append_right s1 h))
  have h3 : stepChunkStr ([], []) (s1 ++ s2) =
      (canonicalLines (beforeLastNL (s1 ++ s2)), afterLastNL (s1 ++ s2)) :=
    stepChunkStr_spec [] [] (s1 ++ s2) (fun x hxm => absurd hxm (List.not_mem_nil x))
      (fun x hxm => hxE x hxm)
  rw [h1, h2, h3]
  have hsplit : s1 ++ s2 = beforeLastNL s1 ++ (afterLastNL s1 ++ s2) := by
    rw [← List.append_assoc, beforeLastNL_append_afterLastNL]
  have hP := endsNL_beforeLastNL_or_nil s1
  have hA : afterLastNL (s1 ++ s2) = afterLastNL (afterLastNL s1 ++ s2) := by
    rw [hsplit, afterLastNL_append _ _ hP]
  have hB : beforeLastNL (s1 ++ s2) =
      beforeLastNL s1 ++ beforeLastNL (afterLastNL s1 ++ s2) := by
    rw [hsplit, beforeLastNL_append _ _ hP]
  rw [hA, hB]
  have hC : canonicalLines
        (beforeLastNL s1 ++ beforeLastNL (afterLastNL s1 ++ s2)) =
      canonicalLines (beforeLastNL s1) ++
        canonicalLines (beforeLastNL (afterLastNL s1 ++ s2)) :=
    canonical_append_of_endsBreak (beforeLastNL s1).length (beforeLastNL s1) _
      le_rfl (endsBreak_beforeLastNL s1)
  rw [hC]

/-- Witness for the amended C4: the text `"ab\nc"` split after the `a`
satisfies the hypotheses, and the split stream yields the same lines as
the unsplit one. -/
theorem c4_amended_boundary_split_preserved_witness :
    (([97] ++ [98, 10, 99]).all isScalar = true) ∧
    (([97] ++ [98, 10, 99]).all (fun x => !isExoticBreak x) = true) ∧
    readStreamLines [utf8Encode [97], utf8Encode [98, 10, 99]] =
      readStreamLines [utf8Encode ([97] ++ [98, 10, 99])] :=
  ⟨by decide, by decide,
    c4_amended_boundary_split_preserved [97] [98, 10, 99] (by decide) (by decide)⟩

end Therascript
